import Mathlib

/-
  Verification development for the entsoe-cross-border-flows repository.

  Shallow embedding conventions:
  * Timestamps are modelled as natural numbers counting hours since an epoch,
    all in the single reference timezone (Europe/Brussels) that the system
    normalizes to; a calendar day is the 24-hour block `d*24 .. d*24+23`,
    and a date value (as produced by the date pickers) is a day number `d`,
    whose midnight timestamp is `d * 24`.
  * A flow value is `Option ℚ`: `some q` is a finite float, `none` models NaN.
    Exact rationals stand in for IEEE doubles; every claim-relevant
    computation here is a sum/difference/ratio where the code relies on exact
    behaviour only up to float epsilon.
  * The data directory is a function from the directed pair of country codes
    to the content of the backing file, `none` meaning the file is absent.
-/

namespace EntsoeFlows

/-- One row of a per-pair series file: timestamp (hours since epoch, reference
timezone) and flow in MW; `none` models a NaN flow value. -/
structure FlowObs where
  timestamp : ℕ
  flow : Option ℚ
deriving DecidableEq

/-- Content of a backing file `data/flow_FROM_TO.json` as seen by `pd.read_json`:
either reading raises (`corrupt`), or it yields a table, which may or may not
have a `timestamp` column and may be empty. -/
inductive FileData where
  | corrupt : FileData
  | table (hasTimestamp : Bool) (rows : List FlowObs) : FileData
deriving DecidableEq

/-- The on-disk data directory: maps a directed pair of country codes to the
backing file content, `none` when no file exists. -/
def Store : Type := String → String → Option FileData

/-- A country record from `countries.json`. -/
structure Country where
  code : String
  name : String
  neighbors : List String
deriving DecidableEq

/-- `get_flow_data` (src/app.py lines 26-37): returns the parsed series when the
file exists, reads without error, is non-empty and has a `timestamp` column;
otherwise returns `None` (never raises). -/
def get_flow_data (store : Store) (codeFrom codeTo : String) : Option (List FlowObs) :=
  match store codeFrom codeTo with
  | none => none
  | some .corrupt => none
  | some (.table hasTs rows) => if rows ≠ [] ∧ hasTs = true then some rows else none

/-! ## Series alignment (Country Total view, src/app.py lines 140-183)

A pandas numeric `Series` is modelled as an association list from timestamp to
cell value; a cell is `Option ℚ`, `none` modelling NaN.  Per the FlowSeries
data-model invariant, series indexes carried by files have unique timestamps;
lookup takes the first matching entry. -/

/-- A pandas numeric series: index entries paired with cell values
(`none` = NaN). -/
def Series : Type := List (ℕ × Option ℚ)

/-- `df['flow']`: the flow column of a loaded file, indexed by timestamp. -/
def flowCol (rows : List FlowObs) : Series :=
  rows.map (fun o => (o.timestamp, o.flow))

/-- The index of a series. -/
def Series.index (s : Series) : List ℕ := s.map Prod.fst

/-- Cell of a series at a timestamp: `none` if the label is absent from the
index, `some none` if present with a NaN value, `some (some q)` otherwise. -/
def Series.cell (s : Series) (t : ℕ) : Option (Option ℚ) :=
  (s.find? (fun p => p.1 == t)).map Prod.snd

/-- Addition of two aligned cells under `fill_value=0` (pandas `Series.add`):
a missing label or NaN value on one side is filled with 0 before adding, but
when both sides are missing the result stays NaN. -/
def combineCell : Option (Option ℚ) → Option (Option ℚ) → Option ℚ
  | some (some a), some (some b) => some (a + b)
  | some (some a), _ => some a
  | _, some (some b) => some b
  | _, _ => none

/-- `a.add(b, fill_value=0)`: index is the union of both indexes, each cell is
the fill-value-0 sum of the two aligned cells. -/
def addFill (a b : Series) : Series :=
  ((a.index ++ b.index).dedup).map (fun t => (t, combineCell (a.cell t) (b.cell t)))

/-- The accumulation loop of the Country Total view: starting from
`pd.Series(dtype=float64)`, each successfully loaded series either replaces the
empty accumulator or is added with `fill_value=0`. -/
def accumulate (loads : List (Option (List FlowObs))) : Series :=
  loads.foldl
    (fun acc o =>
      match o with
      | none => acc
      | some rows => if acc.isEmpty then flowCol rows else addFill acc (flowCol rows)) []

/-- Value of a cell after `fillna(0)`: absent label or NaN both become 0. -/
def Series.filledCell (s : Series) (t : ℕ) : ℚ := ((s.cell t).bind id).getD 0

/-- One row of the combined balance table (after `fillna(0)` and the Net Flow
column assignment). -/
structure BalanceRow where
  ts : ℕ
  imports : ℚ
  exports : ℚ
  netFlow : ℚ
deriving DecidableEq

/-- Lines 170-183 of src/app.py: build the combined Imports/Exports table from
the two accumulated series.  When both series are non-empty the table is
indexed by the union of the two indexes with NaN-filled cells; when exactly one
is non-empty the scalar 0 is broadcast over that series' index for the other
column; when both are empty the view emits a warning and leaves the table
empty — modelled as `none`.  After `fillna(0)`,
`combined['Net Flow'] = combined['Exports'] - combined['Imports']`. -/
def combinedTable (imports exports : Series) : Option (List BalanceRow) :=
  if ¬imports.isEmpty ∧ ¬exports.isEmpty then
    some (((imports.index ++ exports.index).dedup).map (fun t =>
      { ts := t
        imports := imports.filledCell t
        exports := exports.filledCell t
        netFlow := exports.filledCell t - imports.filledCell t }))
  else if ¬imports.isEmpty then
    some (imports.map (fun p =>
      { ts := p.1, imports := p.2.getD 0, exports := 0, netFlow := 0 - p.2.getD 0 }))
  else if ¬exports.isEmpty then
    some (exports.map (fun p =>
      { ts := p.1, imports := 0, exports := p.2.getD 0, netFlow := p.2.getD 0 - 0 }))
  else none

/-- The export loads of the Country Total view: one `get_flow_data` call per
declared neighbor of the target (target → neighbor). -/
def exportLoads (store : Store) (target : Country) : List (Option (List FlowObs)) :=
  target.neighbors.map (fun nb => get_flow_data store target.code nb)

/-- The import loads of the Country Total view: the code scans all countries
for those whose neighbor list contains the target code and loads
(country → target) for each. -/
def importLoads (store : Store) (countries : List Country) (targetCode : String) :
    List (Option (List FlowObs)) :=
  (countries.filter (fun c => targetCode ∈ c.neighbors)).map
    (fun c => get_flow_data store c.code targetCode)

/-- The Country Total computation for a target country code: locate the target
record, accumulate exports over its declared neighbors and imports over the
reverse-adjacency scan, and build the combined balance table.  `none` is the
"no data found for this country" outcome. -/
def computeBalance (countries : List Country) (store : Store) (targetCode : String) :
    Option (List BalanceRow) :=
  match countries.find? (fun c => c.code == targetCode) with
  | none => none
  | some target =>
      combinedTable (accumulate (importLoads store countries targetCode))
        (accumulate (exportLoads store target))

/-- Spec-side ground truth for one series' contribution to an aligned sum at a
timestamp: the flow value with NaN treated as 0, and 0 when the series has no
observation there. -/
def seriesContribution (rows : List FlowObs) (t : ℕ) : ℚ :=
  (flowCol rows).filledCell t

/-- Spec-side ground truth for a whole load list: the sum of the contributions
of the successfully loaded series, NaN and absent observations counting as 0. -/
def loadsSum (loads : List (Option (List FlowObs))) (t : ℕ) : ℚ :=
  (loads.map (fun o => match o with | none => 0 | some rows => seriesContribution rows t)).sum

/-! ## Completeness audit (Missing Data Analysis view, src/app.py lines 232-309)

`start_check` and `end_check` are dates (day numbers `sd`, `ed`); their
localized midnight timestamps are `sd * 24` and `ed * 24`.  The source status
strings are modelled by an inductive type: `missingFile` = "Missing File",
`noDataInRange` = "No Data in Range", `complete` = "Complete", `belowThreshold`
= "Partial", `errorReading` = "Error Reading" (the `except` branch, which also
catches the `ZeroDivisionError` raised when the window spans zero whole
days). -/

/-- Audit status, one constructor per status string the view can produce. -/
inductive AuditStatus where
  | missingFile : AuditStatus
  | noDataInRange : AuditStatus
  | complete : AuditStatus
  | belowThreshold : AuditStatus
  | errorReading : AuditStatus
deriving DecidableEq

/-- The `missing_days` descriptor strings: `allMissing` = "All", `noneMissing`
= "None", `daysList ds` = the comma-separated list of the dates in `ds`,
`daysSummary n d` = "n days missing (e.g. d...)", `hoursMissing` =
"Partial hours missing". -/
inductive MissingDesc where
  | allMissing : MissingDesc
  | noneMissing : MissingDesc
  | daysList (days : List ℕ) : MissingDesc
  | daysSummary (count : ℕ) (sample : ℕ) : MissingDesc
  | hoursMissing : MissingDesc
deriving DecidableEq

/-- One row of the missing-data report. -/
structure ReportEntry where
  status : AuditStatus
  completeness : ℚ
  missingInfo : MissingDesc
deriving DecidableEq

/-- Whether an observation falls in the checked window
`[localized midnight of sd, localized midnight of ed]` (both bounds
inclusive, src/app.py lines 263-264). -/
def inWindow (sd ed : ℕ) (o : FlowObs) : Bool :=
  sd * 24 ≤ o.timestamp && o.timestamp ≤ ed * 24

/-- `pd.date_range(start_check, end_check, freq='D')`: the calendar days of the
window, both endpoints included. -/
def windowDays (sd ed : ℕ) : List ℕ := List.range' sd (ed - sd + 1)

/-- `len(pd.date_range(start_check, end_check, freq='h'))` (src/app.py lines
238-239): the exact inclusive hourly count of the window.  Computed by the view
but not used by the completeness formula. -/
def expectedRangeCount (sd ed : ℕ) : ℕ := (List.range' (sd * 24) ((ed - sd) * 24 + 1)).length

/-- The per-pair body of the Missing Data Analysis loop (src/app.py lines
250-304): starting from the defaults status="Missing File", missing="All",
completeness=0.0, examine the backing file and classify.  An empty table or a
table without a `timestamp` column falls through with the defaults; a read
error — including the `ZeroDivisionError` from a zero-day window — yields
"Error Reading".  Completeness is `min 100 (count / (days·24) · 100)` and the
status is "Complete" exactly when that value is strictly above 99.

On the "Partial" path, line 286 computes
`missing = all_days.difference(present_days)` where `all_days`
(`pd.date_range(start_check, end_check, freq='D')`) is timezone-naive while
`present_days` (`df_range.index.normalize().unique()`) carries the
Europe/Brussels timezone of the series index (the window mask at lines 263-264
compares against localized bounds, so a naive index would already have raised
into the "Error Reading" branch).  pandas `Index.difference` between a
tz-naive and a tz-aware DatetimeIndex finds the two dtypes non-comparable and
returns `all_days` unchanged instead of a set difference, so `missing` is
EVERY day of the window regardless of the observations, `len(missing) > 0`
always holds, and the "Partial hours missing" branch is unreachable. -/
def auditEntry (store : Store) (codeFrom codeTo : String) (sd ed : ℕ) : ReportEntry :=
  match store codeFrom codeTo with
  | none => ⟨.missingFile, 0, .allMissing⟩
  | some .corrupt => ⟨.errorReading, 0, .allMissing⟩
  | some (.table hasTs rows) =>
    if rows ≠ [] ∧ hasTs = true then
      let dfRange := rows.filter (inWindow sd ed)
      if dfRange.length = 0 then ⟨.noDataInRange, 0, .allMissing⟩
      else
        let expected := (ed - sd) * 24
        if expected = 0 then ⟨.errorReading, 0, .allMissing⟩
        else
          let completeness := min 100 ((dfRange.length : ℚ) / (expected : ℚ) * 100)
          if 99 < completeness then ⟨.complete, completeness, .noneMissing⟩
          else
            let missing := windowDays sd ed
            let desc : MissingDesc :=
              if 10 < missing.length then .daysSummary missing.length missing.headI
              else if missing ≠ [] then .daysList missing
              else .hoursMissing
            ⟨.belowThreshold, completeness, desc⟩
    else ⟨.missingFile, 0, .allMissing⟩

/-- Spec-side list of the calendar days of the window that have no observation
inside the window: stated directly as a filter over the window days by "no row
of the file is an in-window observation of that day".  This is what line 286
of src/app.py intends to compute ("# Find missing days") but does not, because
of the naive-vs-aware `difference`; it is used to state that divergence. -/
def missingDaysIn (rows : List FlowObs) (sd ed : ℕ) : List ℕ :=
  (windowDays sd ed).filter
    (fun d => !(rows.any (fun o => inWindow sd ed o && o.timestamp / 24 == d)))

/-! ## Ingestion consolidation (src/fetch_data.py lines 97-107 and
src/import_csv.py lines 71-99)

`sort_values('timestamp')` is modelled as a stable insertion sort on the
timestamp key (pandas keeps the incoming order of equal keys in the
claim-relevant small-collision cases); `drop_duplicates(subset=['timestamp'])`
keeps, per timestamp, the first occurrence by default and the last occurrence
under `keep='last'`. -/

/-- Insert an observation into a timestamp-sorted list, after all strictly
earlier timestamps and before any equal timestamp already present. -/
def insertObs (o : FlowObs) : List FlowObs → List FlowObs
  | [] => [o]
  | x :: xs => if x.timestamp < o.timestamp then x :: insertObs o xs else o :: x :: xs

/-- Stable sort by timestamp (`sort_values('timestamp')`). -/
def sortByTimestamp : List FlowObs → List FlowObs
  | [] => []
  | x :: xs => insertObs x (sortByTimestamp xs)

/-- Worker for keep-first deduplication: `seen` is the set of timestamps
already emitted. -/
def dedupFirstAux (seen : List ℕ) : List FlowObs → List FlowObs
  | [] => []
  | x :: xs =>
      if x.timestamp ∈ seen then dedupFirstAux seen xs
      else x :: dedupFirstAux (x.timestamp :: seen) xs

/-- `drop_duplicates(subset=['timestamp'])` with the default `keep='first'`:
keeps the first occurrence of every timestamp. -/
def dedupKeepFirst (l : List FlowObs) : List FlowObs := dedupFirstAux [] l

/-- `drop_duplicates(subset=['timestamp'], keep='last')`: keeps the last
occurrence of every timestamp. -/
def dedupKeepLast (l : List FlowObs) : List FlowObs :=
  (dedupFirstAux [] l.reverse).reverse

/-- Consolidation of the fetch path (src/fetch_data.py lines 97-103): the
monthly frames for a pair are concatenated in arrival order, sorted by
timestamp, and deduplicated with pandas' default keep-first policy. -/
def consolidateFetch (dfs : List (List FlowObs)) : List FlowObs :=
  dedupKeepFirst (sortByTimestamp dfs.flatten)

/-- The CSV merge-with-existing path (src/import_csv.py lines 71-99): the new
rows for a pair are sorted, concatenated after the existing file content,
deduplicated with `keep='last'` (so an overlapping timestamp keeps the newly
imported row), and sorted by timestamp. -/
def importCsvMerge (existing newRows : List FlowObs) : List FlowObs :=
  sortByTimestamp (dedupKeepLast (existing ++ sortByTimestamp newRows))

/-! ## Concrete instances used in closed statements

Small stores and series used to evaluate the definitions at explicit inputs.
Constant stores (`fun _ _ => ...`) model a data directory in which every
directed pair has the same backing file (or none at all). -/

/-- 594 hourly observations covering hours 0..593: exactly 99% of the
600 expected hours of a 25-day window starting at day 0. -/
def c1Rows : List FlowObs := (List.range 594).map (fun i => ⟨i, some 1⟩)

/-- A store whose every pair is backed by `c1Rows`. -/
def c1Store : Store := fun _ _ => some (.table true c1Rows)

/-- 600 hourly observations covering hours 0..599: more than 99% of the
600 expected hours of a 25-day window starting at day 0. -/
def c1CompleteRows : List FlowObs := (List.range 600).map (fun i => ⟨i, some 1⟩)

/-- A store whose every pair is backed by `c1CompleteRows`. -/
def c1CompleteStore : Store := fun _ _ => some (.table true c1CompleteRows)

/-- A single import load carrying one observation at hour 1 with flow 3. -/
def c3Loads : List (Option (List FlowObs)) := [some [⟨1, some 3⟩]]

/-- The balance table produced from `c3Loads` imports and a failed export load. -/
def c3Tbl : List BalanceRow :=
  [⟨1, (some (3 : ℚ)).getD 0, 0, 0 - (some (3 : ℚ)).getD 0⟩]

/-- One country with a single declared neighbor. -/
def c4Countries : List Country := [⟨"GR", "Greece", ["BG"]⟩]

/-- A store whose every pair carries one observation at hour 0 with flow 2. -/
def c4Store : Store := fun _ _ => some (.table true [⟨0, some 2⟩])

/-- The balance table computed for "GR" from `c4Countries` and `c4Store`. -/
def c4Tbl : List BalanceRow :=
  [⟨0, 0, (some (2 : ℚ)).getD 0, (some (2 : ℚ)).getD 0 - 0⟩]

/-- A country that declares "GR" as neighbor. -/
def c5A : Country := ⟨"RS", "Serbia", ["GR"]⟩

/-- A country that declares no neighbors at all (in particular not "RS"). -/
def c5B : Country := ⟨"GR", "Greece", []⟩

/-- The two-country topology: the edge RS → GR is declared only on RS. -/
def c5Countries : List Country := [c5A, c5B]

/-- A store whose every pair carries one observation at hour 5 with flow 4. -/
def c5Store : Store := fun _ _ => some (.table true [⟨5, some 4⟩])

/-- The balance table computed for "GR" from `c5Countries` and `c5Store`. -/
def c5Tbl : List BalanceRow :=
  [⟨5, (some (4 : ℚ)).getD 0, 0, 0 - (some (4 : ℚ)).getD 0⟩]

/-- Hourly observations covering all of days 0..6 and day 8 of a 10-day
window: days 7, 9 and 10 have no observation and completeness is far below
the threshold. -/
def c6Rows : List FlowObs :=
  (List.range 168).map (fun i => ⟨i, some 1⟩) ++
    (List.range 24).map (fun i => ⟨192 + i, some 1⟩)

/-- A store whose every pair is backed by `c6Rows`. -/
def c6Store : Store := fun _ _ => some (.table true c6Rows)

/-- 240 hourly observations covering hours 0..239 of a 10-day window. -/
def c7Rows : List FlowObs := (List.range 240).map (fun i => ⟨i, some 1⟩)

/-- A store whose every pair is backed by `c7Rows`. -/
def c7Store : Store := fun _ _ => some (.table true c7Rows)

/-- The target country for the no-data balance scenario. -/
def c8Target : Country := ⟨"GR", "Greece", ["BG"]⟩

/-- A one-country topology for the no-data balance scenario. -/
def c8Countries : List Country := [c8Target]

/-- A data directory with no files at all. -/
def c8EmptyStore : Store := fun _ _ => none

/-- A data directory with no files at all (missing-file audit scenario). -/
def c9Store : Store := fun _ _ => none

/-- A data directory with no files at all (default report-fields scenario). -/
def c10Store : Store := fun _ _ => none

/-! ## Helper lemmas: series cells and alignment -/

theorem cell_eq_none_of_not_mem_index (s : Series) (t : ℕ) (h : t ∉ s.index) :
    s.cell t = none := by
  unfold Series.cell
  have hf : List.find? (fun p => p.1 == t) s = none := by
    apply List.find?_eq_none.mpr
    intro p hp
    simp only [beq_iff_eq]
    intro he
    exact h (List.mem_map.mpr ⟨p, hp, he⟩)
  rw [hf]
  rfl

theorem cell_map_fn (l : List ℕ) (f : ℕ → Option ℚ) (t : ℕ) :
    Series.cell (l.map (fun x => (x, f x))) t = if t ∈ l then some (f t) else none := by
  induction l with
  | nil => simp [Series.cell]
  | cons x xs ih =>
      by_cases hx : x = t
      · subst hx
        unfold Series.cell
        rw [List.map_cons, List.find?_cons_of_pos _ (by simp)]
        simp
      · unfold Series.cell at ih ⊢
        rw [List.map_cons, List.find?_cons_of_neg _ (by simpa using hx)]
        rw [ih]
        by_cases hm : t ∈ xs
        · rw [if_pos hm, if_pos (List.mem_cons.mpr (Or.inr hm))]
        · rw [if_neg hm, if_neg ?_]
          intro hc
          rcases List.mem_cons.mp hc with h1 | h1
          · exact hx h1.symm
          · exact hm h1

theorem index_map_fn (l : List ℕ) (f : ℕ → Option ℚ) :
    Series.index (l.map (fun x => (x, f x))) = l := by
  unfold Series.index
  rw [List.map_map]
  have : (Prod.fst ∘ fun x : ℕ => (x, f x)) = id := rfl
  rw [this, List.map_id]

theorem addFill_index (a b : Series) :
    (addFill a b).index = (a.index ++ b.index).dedup := by
  unfold addFill
  exact index_map_fn _ _

theorem mem_addFill_index (a b : Series) (t : ℕ) :
    t ∈ (addFill a b).index ↔ t ∈ a.index ∨ t ∈ b.index := by
  rw [addFill_index, List.mem_dedup, List.mem_append]

theorem combineCell_getD (x y : Option (Option ℚ)) :
    (combineCell x y).getD 0 = (x.bind id).getD 0 + (y.bind id).getD 0 := by
  rcases x with _ | xv
  · rcases y with _ | yv
    · simp [combineCell]
    · rcases yv with _ | q <;> simp [combineCell]
  · rcases xv with _ | p
    · rcases y with _ | yv
      · simp [combineCell]
      · rcases yv with _ | q <;> simp [combineCell]
    · rcases y with _ | yv
      · simp [combineCell]
      · rcases yv with _ | q <;> simp [combineCell]

theorem addFill_filledCell (a b : Series) (t : ℕ) :
    (addFill a b).filledCell t = a.filledCell t + b.filledCell t := by
  unfold Series.filledCell
  unfold addFill
  rw [cell_map_fn]
  by_cases h : t ∈ (a.index ++ b.index).dedup
  · rw [if_pos h]
    simpa using combineCell_getD (a.cell t) (b.cell t)
  · rw [if_neg h]
    rw [List.mem_dedup, List.mem_append] at h
    push_neg at h
    rw [cell_eq_none_of_not_mem_index a t h.1, cell_eq_none_of_not_mem_index b t h.2]
    simp

theorem filledCell_nil (t : ℕ) : Series.filledCell [] t = 0 := rfl

theorem isEmpty_eq_nil {s : Series} (h : s.isEmpty = true) : s = [] :=
  List.isEmpty_iff.mp h

theorem accumulate_foldl_filledCell (loads : List (Option (List FlowObs))) (acc : Series)
    (t : ℕ) :
    (loads.foldl
      (fun acc o =>
        match o with
        | none => acc
        | some rows => if acc.isEmpty then flowCol rows else addFill acc (flowCol rows)) acc).filledCell t
      = acc.filledCell t + loadsSum loads t := by
  induction loads generalizing acc with
  | nil => simp [loadsSum]
  | cons o os ih =>
      rcases o with _ | rows
      · rw [List.foldl_cons]
        simpa [loadsSum, List.map_cons] using ih acc
      · rw [List.foldl_cons]
        by_cases hacc : acc.isEmpty
        · simp only [if_pos hacc]
          rw [ih (flowCol rows)]
          rw [isEmpty_eq_nil hacc, filledCell_nil]
          simp [loadsSum, seriesContribution, add_assoc]
        · simp only [if_neg hacc]
          rw [ih (addFill acc (flowCol rows))]
          rw [addFill_filledCell]
          simp [loadsSum, seriesContribution, add_assoc]

theorem accumulate_filledCell (loads : List (Option (List FlowObs))) (t : ℕ) :
    (accumulate loads).filledCell t = loadsSum loads t := by
  have h := accumulate_foldl_filledCell loads [] t
  unfold accumulate
  rw [h, filledCell_nil, zero_add]

theorem accumulate_foldl_mem_index (loads : List (Option (List FlowObs))) (acc : Series)
    (t : ℕ) :
    (t ∈ (loads.foldl
      (fun acc o =>
        match o with
        | none => acc
        | some rows => if acc.isEmpty then flowCol rows else addFill acc (flowCol rows)) acc).index)
      ↔ t ∈ acc.index ∨ ∃ rows, some rows ∈ loads ∧ t ∈ (flowCol rows).index := by
  induction loads generalizing acc with
  | nil => simp
  | cons o os ih =>
      rcases o with _ | rows
      · rw [List.foldl_cons]
        rw [ih acc]
        simp
      · rw [List.foldl_cons]
        by_cases hacc : acc.isEmpty
        · simp only [if_pos hacc]
          rw [ih (flowCol rows)]
          rw [isEmpty_eq_nil hacc]
          constructor
          · rintro (h | ⟨r, hr, ht⟩)
            · exact Or.inr ⟨rows, by simp, h⟩
            · exact Or.inr ⟨r, by simp [hr], ht⟩
          · rintro (h | ⟨r, hr, ht⟩)
            · exact absurd h (by simp [Series.index])
            · rcases List.mem_cons.mp hr with h1 | h1
              · exact Or.inl (by injection h1 with h1; rw [← h1]; exact ht)
              · exact Or.inr ⟨r, h1, ht⟩
        · simp only [if_neg hacc]
          rw [ih (addFill acc (flowCol rows))]
          rw [mem_addFill_index]
          constructor
          · rintro ((h | h) | ⟨r, hr, ht⟩)
            · exact Or.inl h
            · exact Or.inr ⟨rows, by simp, h⟩
            · exact Or.inr ⟨r, by simp [hr], ht⟩
          · rintro (h | ⟨r, hr, ht⟩)
            · exact Or.inl (Or.inl h)
            · rcases List.mem_cons.mp hr with h1 | h1
              · exact Or.inl (Or.inr (by injection h1 with h1; rw [← h1]; exact ht))
              · exact Or.inr ⟨r, h1, ht⟩

theorem accumulate_mem_index (loads : List (Option (List FlowObs))) (t : ℕ) :
    t ∈ (accumulate loads).index ↔ ∃ rows, some rows ∈ loads ∧ t ∈ (flowCol rows).index := by
  have h := accumulate_foldl_mem_index loads [] t
  unfold accumulate
  rw [h]
  simp [Series.index]

theorem flowCol_index (rows : List FlowObs) :
    (flowCol rows).index = rows.map FlowObs.timestamp := by
  unfold flowCol Series.index
  rw [List.map_map]
  rfl

theorem accumulate_foldl_index_nodup (loads : List (Option (List FlowObs))) (acc : Series)
    (hacc : acc.index.Nodup)
    (h : ∀ rows, some rows ∈ loads → (rows.map FlowObs.timestamp).Nodup) :
    (loads.foldl
      (fun acc o =>
        match o with
        | none => acc
        | some rows => if acc.isEmpty then flowCol rows else addFill acc (flowCol rows)) acc).index.Nodup := by
  induction loads generalizing acc with
  | nil => exact hacc
  | cons o os ih =>
      rcases o with _ | rows
      · rw [List.foldl_cons]
        exact ih acc hacc (fun r hr => h r (by simp [hr]))
      · rw [List.foldl_cons]
        by_cases he : acc.isEmpty
        · simp only [if_pos he]
          refine ih (flowCol rows) ?_ (fun r hr => h r (by simp [hr]))
          rw [flowCol_index]
          exact h rows (by simp)
        · simp only [if_neg he]
          refine ih (addFill acc (flowCol rows)) ?_ (fun r hr => h r (by simp [hr]))
          rw [addFill_index]
          exact List.nodup_dedup _

theorem accumulate_index_nodup (loads : List (Option (List FlowObs)))
    (h : ∀ rows, some rows ∈ loads → (rows.map FlowObs.timestamp).Nodup) :
    (accumulate loads).index.Nodup := by
  unfold accumulate
  exact accumulate_foldl_index_nodup loads [] (by simp [Series.index]) h

theorem accumulate_eq_nil_iff (loads : List (Option (List FlowObs))) :
    accumulate loads = [] ↔ ∀ rows, some rows ∈ loads → rows = [] := by
  constructor
  · intro h rows hr
    rcases hrows : rows with _ | ⟨o, rest⟩
    · rfl
    · exfalso
      have : o.timestamp ∈ (accumulate loads).index := by
        rw [accumulate_mem_index]
        exact ⟨rows, hr, by rw [flowCol_index, hrows]; simp⟩
      rw [h] at this
      simp [Series.index] at this
  · intro h
    rcases hs : accumulate loads with _ | ⟨p, rest⟩
    · rfl
    · exfalso
      have : p.1 ∈ (accumulate loads).index := by rw [hs]; simp [Series.index]
      rw [accumulate_mem_index] at this
      rcases this with ⟨rows, hr, ht⟩
      rw [h rows hr, flowCol_index] at ht
      simp at ht

theorem get_flow_data_some_ne_nil (store : Store) (a b : String) (rows : List FlowObs)
    (h : get_flow_data store a b = some rows) : rows ≠ [] := by
  unfold get_flow_data at h
  rcases hst : store a b with _ | fd <;> rw [hst] at h
  · simp at h
  · rcases fd with _ | ⟨hasTs, rows0⟩
    · simp at h
    · by_cases hc : rows0 ≠ [] ∧ hasTs = true
      · simp only [if_pos hc] at h
        injection h with h
        rw [← h]
        exact hc.1
      · simp only [if_neg hc] at h
        simp at h

/-- A first-match handle on the four branches of `combinedTable`. -/
theorem combinedTable_cases (i e : Series) :
    (i ≠ [] ∧ e ≠ [] ∧ combinedTable i e =
      some (((i.index ++ e.index).dedup).map (fun t =>
        { ts := t
          imports := i.filledCell t
          exports := e.filledCell t
          netFlow := e.filledCell t - i.filledCell t })))
    ∨ (i ≠ [] ∧ e = [] ∧ combinedTable i e =
      some (i.map (fun p =>
        { ts := p.1, imports := p.2.getD 0, exports := 0, netFlow := 0 - p.2.getD 0 })))
    ∨ (i = [] ∧ e ≠ [] ∧ combinedTable i e =
      some (e.map (fun p =>
        { ts := p.1, imports := 0, exports := p.2.getD 0, netFlow := p.2.getD 0 - 0 })))
    ∨ (i = [] ∧ e = [] ∧ combinedTable i e = none) := by
  unfold combinedTable
  by_cases hi : i.isEmpty <;> by_cases he : e.isEmpty
  · refine Or.inr (Or.inr (Or.inr ⟨List.isEmpty_iff.mp hi, List.isEmpty_iff.mp he, ?_⟩))
    rw [if_neg (fun hc => hc.1 hi), if_neg (fun hc => hc hi), if_neg (fun hc => hc he)]
  · refine Or.inr (Or.inr (Or.inl ⟨List.isEmpty_iff.mp hi, ?_, ?_⟩))
    · intro hc
      exact he (List.isEmpty_iff.mpr hc)
    · rw [if_neg (fun hc => hc.1 hi), if_neg (fun hc => hc hi), if_pos he]
  · refine Or.inr (Or.inl ⟨?_, List.isEmpty_iff.mp he, ?_⟩)
    · intro hc
      exact hi (List.isEmpty_iff.mpr hc)
    · rw [if_neg (fun hc => hc.2 he), if_pos hi]
  · refine Or.inl ⟨?_, ?_, ?_⟩
    · intro hc
      exact hi (List.isEmpty_iff.mpr hc)
    · intro hc
      exact he (List.isEmpty_iff.mpr hc)
    · rw [if_pos ⟨hi, he⟩]

theorem combinedTable_eq_none_iff (i e : Series) :
    combinedTable i e = none ↔ i = [] ∧ e = [] := by
  rcases combinedTable_cases i e with ⟨hi, he, hc⟩ | ⟨hi, he, hc⟩ | ⟨hi, he, hc⟩ | ⟨hi, he, hc⟩ <;>
    rw [hc] <;> simp [hi, he]

theorem combinedTable_mem_ts (i e : Series) (tbl : List BalanceRow)
    (h : combinedTable i e = some tbl) (t : ℕ) :
    (∃ row ∈ tbl, row.ts = t) ↔ t ∈ i.index ∨ t ∈ e.index := by
  rcases combinedTable_cases i e with ⟨hi, he, hc⟩ | ⟨hi, he, hc⟩ | ⟨hi, he, hc⟩ | ⟨hi, he, hc⟩ <;>
      rw [hc] at h
  · injection h with h
    rw [← h]
    constructor
    · rintro ⟨row, hrow, hts⟩
      rcases List.mem_map.mp hrow with ⟨x, hx, hxe⟩
      have hxt : x = t := by rw [← hts, ← hxe]
      rw [hxt] at hx
      exact List.mem_append.mp (List.mem_dedup.mp hx)
    · intro ht
      have hmem : t ∈ (i.index ++ e.index).dedup :=
        List.mem_dedup.mpr (List.mem_append.mpr ht)
      exact ⟨_, List.mem_map.mpr ⟨t, hmem, rfl⟩, rfl⟩
  · injection h with h
    rw [← h]
    subst he
    constructor
    · rintro ⟨row, hrow, hts⟩
      rcases List.mem_map.mp hrow with ⟨p, hp, hpe⟩
      left
      rw [← hts, ← hpe]
      exact List.mem_map.mpr ⟨p, hp, rfl⟩
    · rintro (hti | hte)
      · rcases List.mem_map.mp hti with ⟨p, hp, hpe⟩
        exact ⟨_, List.mem_map.mpr ⟨p, hp, rfl⟩, hpe⟩
      · simp [Series.index] at hte
  · injection h with h
    rw [← h]
    subst hi
    constructor
    · rintro ⟨row, hrow, hts⟩
      rcases List.mem_map.mp hrow with ⟨p, hp, hpe⟩
      right
      rw [← hts, ← hpe]
      exact List.mem_map.mpr ⟨p, hp, rfl⟩
    · rintro (hti | hte)
      · simp [Series.index] at hti
      · rcases List.mem_map.mp hte with ⟨p, hp, hpe⟩
        exact ⟨_, List.mem_map.mpr ⟨p, hp, rfl⟩, hpe⟩
  · simp at h

theorem combinedTable_netFlow (i e : Series) (tbl : List BalanceRow)
    (h : combinedTable i e = some tbl) :
    ∀ row ∈ tbl, row.netFlow = row.exports - row.imports := by
  intro row hrow
  rcases combinedTable_cases i e with ⟨hi, he, hc⟩ | ⟨hi, he, hc⟩ | ⟨hi, he, hc⟩ | ⟨hi, he, hc⟩ <;>
      rw [hc] at h
  · injection h with h
    rw [← h] at hrow
    rcases List.mem_map.mp hrow with ⟨x, _, hxe⟩
    rw [← hxe]
  · injection h with h
    rw [← h] at hrow
    rcases List.mem_map.mp hrow with ⟨p, _, hpe⟩
    rw [← hpe]
  · injection h with h
    rw [← h] at hrow
    rcases List.mem_map.mp hrow with ⟨p, _, hpe⟩
    rw [← hpe]
  · simp at h

theorem cell_of_mem_nodup (s : List (ℕ × Option ℚ)) (p : ℕ × Option ℚ)
    (hnd : (Series.index s).Nodup) (hp : p ∈ s) : Series.cell s p.1 = some p.2 := by
  induction s with
  | nil => simp at hp
  | cons q rest ih =>
      have hcons : Series.index (q :: rest) = q.1 :: Series.index rest := rfl
      rw [hcons] at hnd
      have hnd2 := List.nodup_cons.mp hnd
      rcases List.mem_cons.mp hp with h1 | h1
      · subst h1
        unfold Series.cell
        rw [List.find?_cons_of_pos _ (by simp)]
        rfl
      · have hq : ¬((fun p1 : ℕ × Option ℚ => p1.1 == p.1) q) = true := by
          simp only [beq_iff_eq]
          intro hc
          apply hnd2.1
          rw [hc]
          exact List.mem_map.mpr ⟨p, h1, rfl⟩
        unfold Series.cell
        rw [@List.find?_cons_of_neg _ (fun p1 : ℕ × Option ℚ => p1.1 == p.1) q rest hq]
        exact ih hnd2.2 h1

theorem filledCell_of_mem_nodup (s : List (ℕ × Option ℚ)) (p : ℕ × Option ℚ)
    (hnd : (Series.index s).Nodup) (hp : p ∈ s) :
    Series.filledCell s p.1 = p.2.getD 0 := by
  unfold Series.filledCell
  rw [cell_of_mem_nodup s p hnd hp]
  rcases p with ⟨t, _ | v⟩ <;> rfl

theorem combinedTable_row_values (i e : Series) (tbl : List BalanceRow)
    (hi : i.index.Nodup) (he : e.index.Nodup)
    (h : combinedTable i e = some tbl) :
    ∀ row ∈ tbl, row.imports = i.filledCell row.ts ∧ row.exports = e.filledCell row.ts := by
  intro row hrow
  rcases combinedTable_cases i e with ⟨hi1, he1, hc⟩ | ⟨hi1, he1, hc⟩ | ⟨hi1, he1, hc⟩ | ⟨hi1, he1, hc⟩ <;>
      rw [hc] at h
  · injection h with h
    rw [← h] at hrow
    rcases List.mem_map.mp hrow with ⟨x, _, hxe⟩
    rw [← hxe]
    exact ⟨rfl, rfl⟩
  · injection h with h
    rw [← h] at hrow
    rcases List.mem_map.mp hrow with ⟨p, hp, hpe⟩
    rw [← hpe]
    constructor
    · show p.2.getD 0 = i.filledCell p.1
      rw [filledCell_of_mem_nodup i p hi hp]
    · show (0 : ℚ) = e.filledCell p.1
      rw [he1, filledCell_nil]
  · injection h with h
    rw [← h] at hrow
    rcases List.mem_map.mp hrow with ⟨p, hp, hpe⟩
    rw [← hpe]
    constructor
    · show (0 : ℚ) = i.filledCell p.1
      rw [hi1, filledCell_nil]
    · show p.2.getD 0 = e.filledCell p.1
      rw [filledCell_of_mem_nodup e p he hp]
  · simp at h

/-! ## Helper lemmas: completeness audit -/

theorem completeness_gt_iff (n e : ℕ) (he : e ≠ 0) :
    (99 < min 100 ((n : ℚ) / (e : ℚ) * 100)) ↔ 99 * e < 100 * n := by
  have he' : (0 : ℚ) < (e : ℚ) := by
    exact_mod_cast Nat.pos_of_ne_zero he
  rw [lt_min_iff]
  constructor
  · rintro ⟨-, h⟩
    rw [div_mul_eq_mul_div, lt_div_iff₀ he'] at h
    have : (99 : ℚ) * e < 100 * n := by linarith
    exact_mod_cast this
  · intro h
    refine ⟨by norm_num, ?_⟩
    rw [div_mul_eq_mul_div, lt_div_iff₀ he']
    have : (99 : ℚ) * e < 100 * n := by exact_mod_cast h
    linarith

/-- The table branch of `auditEntry`, rewritten with the threshold decision as
an integer comparison. -/
theorem auditEntry_table_eq (store : Store) (a b : String) (sd ed : ℕ) (rows : List FlowObs)
    (hst : store a b = some (.table true rows))
    (hn : (rows.filter (inWindow sd ed)).length ≠ 0)
    (he : (ed - sd) * 24 ≠ 0) :
    auditEntry store a b sd ed =
      if 99 * ((ed - sd) * 24) < 100 * (rows.filter (inWindow sd ed)).length then
        ⟨.complete,
          min 100 (((rows.filter (inWindow sd ed)).length : ℚ) / (((ed - sd) * 24 : ℕ) : ℚ) * 100),
          .noneMissing⟩
      else
        ⟨.belowThreshold,
          min 100 (((rows.filter (inWindow sd ed)).length : ℚ) / (((ed - sd) * 24 : ℕ) : ℚ) * 100),
          if 10 < (windowDays sd ed).length then
            .daysSummary (windowDays sd ed).length (windowDays sd ed).headI
          else if windowDays sd ed ≠ [] then .daysList (windowDays sd ed)
          else .hoursMissing⟩ := by
  have hrows : rows ≠ [] := by
    intro hc
    subst hc
    simp at hn
  have hcond : rows ≠ [] ∧ True := ⟨hrows, trivial⟩
  unfold auditEntry
  rw [hst]
  simp only [if_pos hcond, if_neg hn, if_neg he]
  by_cases hdec : 99 * ((ed - sd) * 24) < 100 * (rows.filter (inWindow sd ed)).length
  · rw [if_pos ((completeness_gt_iff _ _ he).mpr hdec), if_pos hdec]
  · rw [if_neg (fun hlt => hdec ((completeness_gt_iff _ _ he).mp hlt)), if_neg hdec]

/-! ## Helper lemmas: ingestion sorting and deduplication -/

theorem filter_insertObs_of_eq (o : FlowObs) (l : List FlowObs) (t : ℕ) (ho : o.timestamp = t) :
    (insertObs o l).filter (fun x => x.timestamp == t) =
      o :: l.filter (fun x => x.timestamp == t) := by
  induction l with
  | nil =>
      unfold insertObs
      simp [ho]
  | cons x xs ih =>
      unfold insertObs
      by_cases hx : x.timestamp < o.timestamp
      · rw [if_pos hx]
        have hxt : (x.timestamp == t) = false := by
          simp only [beq_eq_false_iff_ne]
          intro hc
          rw [hc, ← ho] at hx
          exact lt_irrefl _ hx
        rw [List.filter_cons, hxt]
        simp only [Bool.false_eq_true, if_false]
        rw [ih]
        rw [List.filter_cons, hxt]
        simp
      · rw [if_neg hx]
        rw [List.filter_cons]
        have : (o.timestamp == t) = true := by simp [ho]
        rw [this]
        simp

theorem filter_insertObs_of_ne (o : FlowObs) (l : List FlowObs) (t : ℕ) (ho : o.timestamp ≠ t) :
    (insertObs o l).filter (fun x => x.timestamp == t) =
      l.filter (fun x => x.timestamp == t) := by
  induction l with
  | nil =>
      unfold insertObs
      simp [ho]
  | cons x xs ih =>
      unfold insertObs
      by_cases hx : x.timestamp < o.timestamp
      · rw [if_pos hx]
        rw [List.filter_cons, List.filter_cons]
        cases hxt : (x.timestamp == t) <;> simp [ih]
      · rw [if_neg hx]
        rw [List.filter_cons]
        have : (o.timestamp == t) = false := by simp [ho]
        rw [this]
        simp

theorem filter_sortByTimestamp (l : List FlowObs) (t : ℕ) :
    (sortByTimestamp l).filter (fun x => x.timestamp == t) =
      l.filter (fun x => x.timestamp == t) := by
  induction l with
  | nil => rfl
  | cons x xs ih =>
      unfold sortByTimestamp
      by_cases hx : x.timestamp = t
      · rw [filter_insertObs_of_eq _ _ _ hx, ih, List.filter_cons]
        simp [hx]
      · rw [filter_insertObs_of_ne _ _ _ hx, ih, List.filter_cons]
        have : (x.timestamp == t) = false := by simp [hx]
        rw [this]
        simp

theorem filter_dedupFirstAux (seen : List ℕ) (l : List FlowObs) (t : ℕ) :
    (dedupFirstAux seen l).filter (fun x => x.timestamp == t) =
      if t ∈ seen then [] else ((l.filter (fun x => x.timestamp == t)).head?).toList := by
  induction l generalizing seen with
  | nil =>
      unfold dedupFirstAux
      by_cases ht : t ∈ seen <;> simp [ht]
  | cons x xs ih =>
      unfold dedupFirstAux
      by_cases hxs : x.timestamp ∈ seen
      · rw [if_pos hxs, ih seen]
        by_cases ht : t ∈ seen
        · rw [if_pos ht, if_pos ht]
        · rw [if_neg ht, if_neg ht]
          have hxt : (x.timestamp == t) = false := by
            simp only [beq_eq_false_iff_ne]
            intro hc
            rw [hc] at hxs
            exact ht hxs
          rw [List.filter_cons, hxt]
          simp
      · rw [if_neg hxs]
        by_cases hxt : x.timestamp = t
        · subst hxt
          rw [if_neg hxs]
          rw [List.filter_cons]
          simp only [beq_self_eq_true, if_true]
          rw [ih (x.timestamp :: seen)]
          rw [if_pos (List.mem_cons_self _ _)]
          rw [List.filter_cons]
          simp
        · have hxbeq : (x.timestamp == t) = false := by simp [hxt]
          rw [List.filter_cons, hxbeq]
          simp only [Bool.false_eq_true, if_false]
          rw [ih (x.timestamp :: seen)]
          by_cases ht : t ∈ seen
          · rw [if_pos (List.mem_cons.mpr (Or.inr ht)), if_pos ht]
          · rw [if_neg ?hns, if_neg ht]
            · rw [List.filter_cons, hxbeq]
              simp
            case hns =>
              intro hc
              rcases List.mem_cons.mp hc with h1 | h1
              · exact hxt h1.symm
              · exact ht h1

theorem filter_dedupKeepFirst (l : List FlowObs) (t : ℕ) :
    (dedupKeepFirst l).filter (fun x => x.timestamp == t) =
      ((l.filter (fun x => x.timestamp == t)).head?).toList := by
  unfold dedupKeepFirst
  rw [filter_dedupFirstAux]
  simp

theorem filter_dedupKeepLast (l : List FlowObs) (t : ℕ) :
    (dedupKeepLast l).filter (fun x => x.timestamp == t) =
      ((l.filter (fun x => x.timestamp == t)).getLast?).toList := by
  unfold dedupKeepLast
  rw [List.filter_reverse, filter_dedupFirstAux]
  simp only [List.not_mem_nil, if_false, List.filter_reverse]
  rw [List.head?_reverse]
  have hrev : ∀ (o : Option FlowObs), o.toList.reverse = o.toList := by
    intro o
    cases o <;> rfl
  rw [hrev]

theorem mem_insertObs (o x : FlowObs) (l : List FlowObs) :
    x ∈ insertObs o l ↔ x = o ∨ x ∈ l := by
  induction l with
  | nil =>
      unfold insertObs
      simp
  | cons y ys ih =>
      unfold insertObs
      by_cases hy : y.timestamp < o.timestamp
      · rw [if_pos hy]
        rw [List.mem_cons, ih, List.mem_cons]
        tauto
      · rw [if_neg hy]
        simp only [List.mem_cons]

theorem pairwise_insertObs (o : FlowObs) (l : List FlowObs)
    (h : l.Pairwise (fun a b => a.timestamp ≤ b.timestamp)) :
    (insertObs o l).Pairwise (fun a b => a.timestamp ≤ b.timestamp) := by
  induction l with
  | nil =>
      unfold insertObs
      simp
  | cons y ys ih =>
      unfold insertObs
      rcases List.pairwise_cons.mp h with ⟨hy, hys⟩
      by_cases hlt : y.timestamp < o.timestamp
      · rw [if_pos hlt]
        rw [List.pairwise_cons]
        refine ⟨?_, ih hys⟩
        intro z hz
        rcases (mem_insertObs o z ys).mp hz with h1 | h1
        · rw [h1]
          exact le_of_lt hlt
        · exact hy z h1
      · rw [if_neg hlt]
        rw [List.pairwise_cons]
        refine ⟨?_, h⟩
        intro z hz
        rcases List.mem_cons.mp hz with h1 | h1
        · rw [h1]
          exact le_of_not_lt hlt
        · exact le_trans (le_of_not_lt hlt) (hy z h1)

theorem pairwise_sortByTimestamp (l : List FlowObs) :
    (sortByTimestamp l).Pairwise (fun a b => a.timestamp ≤ b.timestamp) := by
  induction l with
  | nil => exact List.Pairwise.nil
  | cons x xs ih =>
      unfold sortByTimestamp
      exact pairwise_insertObs x _ ih

theorem dedupFirstAux_sublist (seen : List ℕ) (l : List FlowObs) :
    (dedupFirstAux seen l).Sublist l := by
  induction l generalizing seen with
  | nil => exact List.Sublist.refl []
  | cons x xs ih =>
      unfold dedupFirstAux
      by_cases hx : x.timestamp ∈ seen
      · rw [if_pos hx]
        exact List.Sublist.cons x (ih seen)
      · rw [if_neg hx]
        exact List.Sublist.cons₂ x (ih (x.timestamp :: seen))

theorem pairwise_consolidateFetch (dfs : List (List FlowObs)) :
    (consolidateFetch dfs).Pairwise (fun a b => a.timestamp ≤ b.timestamp) := by
  unfold consolidateFetch dedupKeepFirst
  exact List.Pairwise.sublist (dedupFirstAux_sublist [] _) (pairwise_sortByTimestamp _)

theorem pairwise_importCsvMerge (existing newRows : List FlowObs) :
    (importCsvMerge existing newRows).Pairwise (fun a b => a.timestamp ≤ b.timestamp) := by
  unfold importCsvMerge
  exact pairwise_sortByTimestamp _

theorem filter_consolidateFetch (dfs : List (List FlowObs)) (t : ℕ) :
    (consolidateFetch dfs).filter (fun x => x.timestamp == t) =
      ((dfs.flatten.filter (fun x => x.timestamp == t)).head?).toList := by
  unfold consolidateFetch
  rw [filter_dedupKeepFirst, filter_sortByTimestamp]

theorem filter_importCsvMerge (existing newRows : List FlowObs) (t : ℕ) :
    (importCsvMerge existing newRows).filter (fun x => x.timestamp == t) =
      (((existing ++ newRows).filter (fun x => x.timestamp == t)).getLast?).toList := by
  unfold importCsvMerge
  rw [filter_sortByTimestamp, filter_dedupKeepLast, List.filter_append, List.filter_append,
    filter_sortByTimestamp]

theorem seriesContribution_eq_zero (rows : List FlowObs) (t : ℕ)
    (h : ∀ o ∈ rows, o.timestamp ≠ t) : seriesContribution rows t = 0 := by
  unfold seriesContribution Series.filledCell
  rw [cell_eq_none_of_not_mem_index]
  · rfl
  · rw [flowCol_index]
    intro hc
    rcases List.mem_map.mp hc with ⟨o, ho, he⟩
    exact h o ho he

theorem loadsSum_eq_zero (loads : List (Option (List FlowObs))) (t : ℕ)
    (h : ∀ rows, some rows ∈ loads → ∀ o ∈ rows, o.timestamp ≠ t) :
    loadsSum loads t = 0 := by
  unfold loadsSum
  apply List.sum_eq_zero
  intro x hx
  rcases List.mem_map.mp hx with ⟨o, ho, he⟩
  rcases o with _ | rows
  · exact he.symm
  · rw [← he]
    exact seriesContribution_eq_zero rows t (h rows ho)

/-! ## Claim theorems -/

/-- C9: for a directed pair with no backing file, `get_flow_data` returns
`None` without raising, and the completeness audit reports status
"Missing File" unconditionally, for every audit window; the missing-file
classification takes priority over every other status. -/
theorem C9_missing_file (store : Store) (a b : String) (h : store a b = none) :
    get_flow_data store a b = none ∧
    ∀ sd ed : ℕ, auditEntry store a b sd ed =
      ⟨AuditStatus.missingFile, 0, MissingDesc.allMissing⟩ := by
  constructor
  · unfold get_flow_data
    rw [h]
  · intro sd ed
    unfold auditEntry
    rw [h]

/-- C9 witness: on an empty data directory, the load of ("GR", "BG") is `None`
and the audit of that pair over the window from day 3 to day 17 reports
"Missing File" with completeness 0 and missing descriptor "All". -/
theorem C9_missing_file_witness :
    get_flow_data c9Store "GR" "BG" = none ∧
    auditEntry c9Store "GR" "BG" 3 17 =
      ⟨AuditStatus.missingFile, 0, MissingDesc.allMissing⟩ :=
  ⟨(C9_missing_file c9Store "GR" "BG" rfl).1,
    (C9_missing_file c9Store "GR" "BG" rfl).2 3 17⟩

/-- Exhaustive shape of an audit entry: either the status is "Complete" or
"Partial", or the whole entry is one of the three default-field triples. -/
theorem auditEntry_shape (store : Store) (a b : String) (sd ed : ℕ) :
    (auditEntry store a b sd ed).status = AuditStatus.complete ∨
    (auditEntry store a b sd ed).status = AuditStatus.belowThreshold ∨
    auditEntry store a b sd ed = ⟨AuditStatus.missingFile, 0, MissingDesc.allMissing⟩ ∨
    auditEntry store a b sd ed = ⟨AuditStatus.noDataInRange, 0, MissingDesc.allMissing⟩ ∨
    auditEntry store a b sd ed = ⟨AuditStatus.errorReading, 0, MissingDesc.allMissing⟩ := by
  unfold auditEntry
  rcases store a b with _ | fd
  · right; right; left; trivial
  · rcases fd with _ | ⟨hasTs, rows⟩
    · right; right; right; right; trivial
    · by_cases hc : rows ≠ [] ∧ hasTs = true
      · simp only [if_pos hc]
        by_cases hn : (rows.filter (inWindow sd ed)).length = 0
        · simp only [if_pos hn]
          right; right; right; left; trivial
        · simp only [if_neg hn]
          by_cases he : (ed - sd) * 24 = 0
          · simp only [if_pos he]
            right; right; right; right; trivial
          · simp only [if_neg he]
            split_ifs <;>
              first
                | (left; trivial)
                | (right; left; trivial)
      · simp only [if_neg hc]
        right; right; left; trivial

/-- C10: every report entry whose status is neither "Complete" nor "Partial"
keeps the initial field values: completeness percent exactly 0 and missing
descriptor "All"; no non-Complete, non-Partial path updates them. -/
theorem C10_default_fields (store : Store) (a b : String) (sd ed : ℕ)
    (h1 : (auditEntry store a b sd ed).status ≠ AuditStatus.complete)
    (h2 : (auditEntry store a b sd ed).status ≠ AuditStatus.belowThreshold) :
    (auditEntry store a b sd ed).completeness = 0 ∧
    (auditEntry store a b sd ed).missingInfo = MissingDesc.allMissing := by
  rcases auditEntry_shape store a b sd ed with h | h | h | h | h
  · exact absurd h h1
  · exact absurd h h2
  · rw [h]
    exact ⟨rfl, rfl⟩
  · rw [h]
    exact ⟨rfl, rfl⟩
  · rw [h]
    exact ⟨rfl, rfl⟩

/-- C10 witness: on an empty data directory the report entry for ("A", "B")
over the window from day 0 to day 5 is non-Complete and non-Partial, and keeps
completeness 0 and missing descriptor "All". -/
theorem C10_default_fields_witness :
    (auditEntry c10Store "A" "B" 0 5).completeness = 0 ∧
    (auditEntry c10Store "A" "B" 0 5).missingInfo = MissingDesc.allMissing :=
  C10_default_fields c10Store "A" "B" 0 5 (by decide) (by decide)

set_option maxRecDepth 100000 in
/-- C1 counterexample: an existing, readable series holding exactly 99% of the
expected hourly count of a 25-day window (594 of 600 hours) is classified
"Partial", not "Complete", and its missing-days descriptor is not "none":
the code requires completeness strictly above 99, so the claimed
"at least 99%" boundary fails at exactly 99%. -/
theorem C1_counterexample :
    100 * (c1Rows.filter (inWindow 0 25)).length = 99 * ((25 - 0) * 24) ∧
    (auditEntry c1Store "GR" "BG" 0 25).status = AuditStatus.belowThreshold ∧
    (auditEntry c1Store "GR" "BG" 0 25).missingInfo ≠ MissingDesc.noneMissing := by
  have h := auditEntry_table_eq c1Store "GR" "BG" 0 25 c1Rows rfl (by decide) (by decide)
  rw [if_neg (by decide)] at h
  refine ⟨by decide, ?_, ?_⟩
  · rw [h]
  · rw [h]
    decide

/-- C1 amended: for every audit of an existing, readable, non-empty series
with at least one observation in a window spanning a non-zero number of whole
days, the status is "Complete" if and only if the in-window observation count
is STRICTLY greater than 99% of the expected hourly count
((windowEnd − windowStart).days × 24); exactly 99% is classified "Partial".
When the status is "Complete" the missing-days descriptor is "none". -/
theorem C1_complete_iff_strict (store : Store) (a b : String) (sd ed : ℕ)
    (rows : List FlowObs)
    (hst : store a b = some (.table true rows))
    (hn : (rows.filter (inWindow sd ed)).length ≠ 0)
    (he : (ed - sd) * 24 ≠ 0) :
    ((auditEntry store a b sd ed).status = AuditStatus.complete ↔
      99 * ((ed - sd) * 24) < 100 * (rows.filter (inWindow sd ed)).length) ∧
    ((auditEntry store a b sd ed).status = AuditStatus.complete →
      (auditEntry store a b sd ed).missingInfo = MissingDesc.noneMissing) := by
  rw [auditEntry_table_eq store a b sd ed rows hst hn he]
  by_cases hdec : 99 * ((ed - sd) * 24) < 100 * (rows.filter (inWindow sd ed)).length
  · rw [if_pos hdec]
    exact ⟨⟨fun _ => hdec, fun _ => rfl⟩, fun _ => rfl⟩
  · rw [if_neg hdec]
    refine ⟨⟨fun hc => ?_, fun hc => absurd hc hdec⟩, fun hc => ?_⟩ <;> simp at hc

set_option maxRecDepth 100000 in
/-- C1 amended witness: a series with all 600 expected hours of a 25-day
window present (strictly more than 99%) is classified "Complete" with missing
descriptor "none". -/
theorem C1_complete_iff_strict_witness :
    (auditEntry c1CompleteStore "GR" "BG" 0 25).status = AuditStatus.complete ∧
    (auditEntry c1CompleteStore "GR" "BG" 0 25).missingInfo = MissingDesc.noneMissing := by
  have h := C1_complete_iff_strict c1CompleteStore "GR" "BG" 0 25 c1CompleteRows rfl
    (by decide) (by decide)
  have hs := h.1.mpr (by decide)
  exact ⟨hs, h.2 hs⟩

/-- C7: for every audit of an existing, readable series with at least one
observation in a window spanning a non-zero number of whole days, the reported
completeness percent equals the in-window observation count divided by the
day-count-derived expected-hours denominator ((windowEnd − windowStart).days ×
24) times 100, capped at 100; it never exceeds 100, and the denominator is not
the exact hourly count of the inclusive window range (which the view computes
but never uses). -/
theorem C7_completeness_formula (store : Store) (a b : String) (sd ed : ℕ)
    (rows : List FlowObs)
    (hst : store a b = some (.table true rows))
    (hn : rows.countP (inWindow sd ed) ≠ 0)
    (he : (ed - sd) * 24 ≠ 0) :
    (auditEntry store a b sd ed).completeness =
      min 100 ((rows.countP (inWindow sd ed) : ℚ) / (((ed - sd) * 24 : ℕ) : ℚ) * 100) ∧
    (auditEntry store a b sd ed).completeness ≤ 100 ∧
    (ed - sd) * 24 ≠ expectedRangeCount sd ed := by
  have hlen : rows.countP (inWindow sd ed) = (rows.filter (inWindow sd ed)).length :=
    List.countP_eq_length_filter _ _
  rw [hlen] at hn
  rw [auditEntry_table_eq store a b sd ed rows hst hn he]
  have hcap : ∀ r : ReportEntry,
      r.completeness = min 100 (((rows.filter (inWindow sd ed)).length : ℚ) /
        (((ed - sd) * 24 : ℕ) : ℚ) * 100) → r.completeness ≤ 100 := by
    intro r hr
    rw [hr]
    exact min_le_left _ _
  have hrange : (ed - sd) * 24 ≠ expectedRangeCount sd ed := by
    unfold expectedRangeCount
    rw [List.length_range']
    omega
  by_cases hdec : 99 * ((ed - sd) * 24) < 100 * (rows.filter (inWindow sd ed)).length
  · rw [if_pos hdec]
    exact ⟨by rw [hlen], hcap _ rfl, hrange⟩
  · rw [if_neg hdec]
    exact ⟨by rw [hlen], hcap _ rfl, hrange⟩

set_option maxRecDepth 100000 in
/-- C7 witness: a series with all 240 hours of a 10-day window present reports
completeness min(100, count/240·100), which does not exceed 100, and the
formula denominator differs from the exact inclusive hourly range count. -/
theorem C7_completeness_formula_witness :
    (auditEntry c7Store "GR" "BG" 0 10).completeness =
      min 100 ((c7Rows.countP (inWindow 0 10) : ℚ) / (((10 - 0) * 24 : ℕ) : ℚ) * 100) ∧
    (auditEntry c7Store "GR" "BG" 0 10).completeness ≤ 100 ∧
    (10 - 0) * 24 ≠ expectedRangeCount 0 10 :=
  C7_completeness_formula c7Store "GR" "BG" 0 10 c7Rows rfl (by decide) (by decide)

set_option maxRecDepth 100000 in
/-- C6: evaluation of the code at the failing input.  Over the 10-day window
starting at day 0, a series covering every hour of days 0..6 and of day 8
(192 observations; days 7, 9 and 10 have none) is classified "Partial", but
the missing-days descriptor reports ALL 11 calendar days of the window as
missing — a count of 11 with day 0 as the example date — although the
spec-side set of zero-observation days is exactly [7, 9, 10]: the tz-naive
`all_days` diffed against the tz-aware `present_days` (src/app.py line 286)
matches nothing, so the program never reports the actual missing days and the
"Partial hours missing" branch is unreachable. -/
theorem C6_code_reports_all_days :
    (auditEntry c6Store "GR" "BG" 0 10).status = AuditStatus.belowThreshold ∧
    (auditEntry c6Store "GR" "BG" 0 10).missingInfo = MissingDesc.daysSummary 11 0 ∧
    missingDaysIn c6Rows 0 10 = [7, 9, 10] ∧
    MissingDesc.daysSummary 11 0 ≠ MissingDesc.daysList [7, 9, 10] := by
  have h := auditEntry_table_eq c6Store "GR" "BG" 0 10 c6Rows rfl (by decide) (by decide)
  rw [if_neg (by decide)] at h
  refine ⟨?_, ?_, by decide, by decide⟩
  · rw [h]
  · rw [h]
    decide

/-- C2 counterexample: two monthly frames for the same pair carrying the same
timestamp with different flows — the fetch-path consolidation keeps the
earlier-written observation (flow 1) and discards the newer one (flow 2),
contradicting last-write-wins. -/
theorem C2_counterexample :
    consolidateFetch [[⟨0, some 1⟩], [⟨0, some 2⟩]] = [⟨0, some 1⟩] ∧
    consolidateFetch [[⟨0, some 1⟩], [⟨0, some 2⟩]] ≠ [⟨0, some 2⟩] := by
  exact ⟨by decide, by decide⟩

/-- C2 amended: both ingestion paths hand over a series that is sorted
ascending by timestamp with at most one observation per timestamp, but they
resolve collisions differently: the CSV merge-with-existing path keeps, for
every timestamp, the LAST occurrence of the concatenation of the existing file
content and the newly imported rows (last-write-wins, the new row beats the
existing one), while the fetch-path consolidation keeps the FIRST occurrence
of the concatenated monthly frames (pandas `drop_duplicates` default
`keep='first'`), discarding later-written duplicates. -/
theorem C2_dedup_policies (existing newRows : List FlowObs) (dfs : List (List FlowObs))
    (t : ℕ) :
    ((importCsvMerge existing newRows).filter (fun x => x.timestamp == t) =
      (((existing ++ newRows).filter (fun x => x.timestamp == t)).getLast?).toList) ∧
    (importCsvMerge existing newRows).Pairwise (fun x y => x.timestamp ≤ y.timestamp) ∧
    ((consolidateFetch dfs).filter (fun x => x.timestamp == t) =
      ((dfs.flatten.filter (fun x => x.timestamp == t)).head?).toList) ∧
    (consolidateFetch dfs).Pairwise (fun x y => x.timestamp ≤ y.timestamp) :=
  ⟨filter_importCsvMerge existing newRows t, pairwise_importCsvMerge existing newRows,
    filter_consolidateFetch dfs t, pairwise_consolidateFetch dfs⟩

/-- C3: for every pair of import/export load lists whose loaded series obey
the one-observation-per-timestamp invariant, the combined aligned table's
timestamp index is exactly the union of all loaded timestamps (no input
timestamp is dropped), every cell is a number equal to the NaN-as-0 sum of the
contributing series at that timestamp (never NaN, never absent), and a column
that received no observation at a timestamp holds exactly 0 there. -/
theorem C3_alignment (impLoads expLoads : List (Option (List FlowObs))) (tbl : List BalanceRow)
    (hnd : ∀ rows, some rows ∈ impLoads ++ expLoads → (rows.map FlowObs.timestamp).Nodup)
    (h : combinedTable (accumulate impLoads) (accumulate expLoads) = some tbl) :
    (∀ t : ℕ, (∃ row ∈ tbl, row.ts = t) ↔
      ((∃ rows, some rows ∈ impLoads ∧ ∃ o ∈ rows, o.timestamp = t) ∨
       (∃ rows, some rows ∈ expLoads ∧ ∃ o ∈ rows, o.timestamp = t))) ∧
    (∀ row ∈ tbl, row.imports = loadsSum impLoads row.ts ∧
      row.exports = loadsSum expLoads row.ts) ∧
    (∀ row ∈ tbl, (∀ rows, some rows ∈ impLoads → ∀ o ∈ rows, o.timestamp ≠ row.ts) →
      row.imports = 0) := by
  have hndi : (accumulate impLoads).index.Nodup :=
    accumulate_index_nodup _ (fun r hr => hnd r (List.mem_append.mpr (Or.inl hr)))
  have hnde : (accumulate expLoads).index.Nodup :=
    accumulate_index_nodup _ (fun r hr => hnd r (List.mem_append.mpr (Or.inr hr)))
  have hvals := combinedTable_row_values _ _ _ hndi hnde h
  have hconv : ∀ rows : List FlowObs, ∀ t : ℕ,
      (t ∈ (flowCol rows).index ↔ ∃ o ∈ rows, o.timestamp = t) := by
    intro rows t
    rw [flowCol_index]
    exact List.mem_map
  refine ⟨?_, ?_, ?_⟩
  · intro t
    rw [combinedTable_mem_ts _ _ _ h t, accumulate_mem_index, accumulate_mem_index]
    simp only [hconv]
  · intro row hrow
    have hv := hvals row hrow
    exact ⟨hv.1.trans (accumulate_filledCell _ _), hv.2.trans (accumulate_filledCell _ _)⟩
  · intro row hrow hno
    have hv := (hvals row hrow).1.trans (accumulate_filledCell _ _)
    rw [hv]
    exact loadsSum_eq_zero _ _ hno

/-- C3 witness: one import load with a single observation at hour 1 and one
failed export load produce a table whose only row holds the import value as a
NaN-free sum. -/
theorem C3_alignment_witness :
    combinedTable (accumulate c3Loads) (accumulate [none]) = some c3Tbl ∧
    ∀ row ∈ c3Tbl, row.imports = loadsSum c3Loads row.ts := by
  have hnd : ∀ rows, some rows ∈ c3Loads ++ [none] → (rows.map FlowObs.timestamp).Nodup := by
    intro rows hr
    simp [c3Loads] at hr
    subst hr
    decide
  have h := C3_alignment c3Loads [none] c3Tbl hnd rfl
  exact ⟨rfl, fun row hrow => (h.2.1 row hrow).1⟩

/-- C4: for every timestamp of a computed balance table, the Net Flow column
equals the Exports column minus the Imports column exactly (positive = net
exporter); in the rational-valued model the identity is exact. -/
theorem C4_netflow_identity (countries : List Country) (store : Store) (targetCode : String)
    (tbl : List BalanceRow) (h : computeBalance countries store targetCode = some tbl) :
    ∀ row ∈ tbl, row.netFlow = row.exports - row.imports := by
  unfold computeBalance at h
  generalize countries.find? (fun c => c.code == targetCode) = r at h
  rcases r with _ | target
  · simp at h
  · exact combinedTable_netFlow _ _ _ h

/-- C4 witness: the balance computed for "GR" over a one-edge topology
satisfies the Net Flow identity on its single row. -/
theorem C4_netflow_identity_witness :
    computeBalance c4Countries c4Store "GR" = some c4Tbl ∧
    ∀ row ∈ c4Tbl, row.netFlow = row.exports - row.imports :=
  ⟨rfl, C4_netflow_identity c4Countries c4Store "GR" c4Tbl rfl⟩

/-- C5: if country A lists B among its neighbors, then the balance computation
for target B loads the directed pair (A, B) in its Imports accumulation — the
calculator finds A by scanning all countries for those whose neighbor set
contains B (the loaded pairs are exactly those), with no condition on B's own
neighbor list — and every timestamp of the loaded A→B series appears in B's
balance table. -/
theorem C5_reverse_adjacency (countries : List Country) (store : Store) (A : Country)
    (B : String) (rows : List FlowObs) (tbl : List BalanceRow)
    (hA : A ∈ countries) (hAB : B ∈ A.neighbors)
    (hload : get_flow_data store A.code B = some rows)
    (hbal : computeBalance countries store B = some tbl) :
    get_flow_data store A.code B ∈ importLoads store countries B ∧
    (∀ o' ∈ importLoads store countries B,
      ∃ c ∈ countries, B ∈ c.neighbors ∧ o' = get_flow_data store c.code B) ∧
    (∀ o ∈ rows, ∃ row ∈ tbl, row.ts = o.timestamp) := by
  have hmem : get_flow_data store A.code B ∈ importLoads store countries B := by
    unfold importLoads
    exact List.mem_map.mpr ⟨A, List.mem_filter.mpr ⟨hA, by simpa using hAB⟩, rfl⟩
  refine ⟨hmem, ?_, ?_⟩
  · intro o' ho'
    unfold importLoads at ho'
    rcases List.mem_map.mp ho' with ⟨c, hc, he⟩
    have hcf := List.mem_filter.mp hc
    exact ⟨c, hcf.1, by simpa using hcf.2, he.symm⟩
  · intro o ho
    unfold computeBalance at hbal
    generalize countries.find? (fun c => c.code == B) = r at hbal
    rcases r with _ | target
    · simp at hbal
    · rw [combinedTable_mem_ts _ _ _ hbal o.timestamp]
      left
      rw [accumulate_mem_index]
      refine ⟨rows, ?_, ?_⟩
      · rw [← hload]
        exact hmem
      · rw [flowCol_index]
        exact List.mem_map.mpr ⟨o, ho, rfl⟩

/-- C5 witness: in a topology where RS lists GR but GR lists nobody, the RS→GR
series is among GR's import loads and its timestamp (hour 5) appears in GR's
balance table. -/
theorem C5_reverse_adjacency_witness :
    get_flow_data c5Store c5A.code "GR" ∈ importLoads c5Store c5Countries "GR" ∧
    ∃ row ∈ c5Tbl, row.ts = 5 := by
  have h := C5_reverse_adjacency c5Countries c5Store c5A "GR" [⟨5, some 4⟩] c5Tbl
    (by decide) (by decide) rfl rfl
  exact ⟨h.1, h.2.2 ⟨5, some 4⟩ (by decide)⟩

/-- C8: the balance computation returns the explicit no-data signal (the empty
table with a warning, modelled as `none`) exactly when every import load and
every export load returned no data (file absent, unreadable, empty or lacking
a timestamp column); equivalently, whenever a table is produced at least one
load carried data, so an all-zero column can only come from loaded flows. -/
theorem C8_no_data_signal (countries : List Country) (store : Store) (targetCode : String)
    (target : Country)
    (hfind : countries.find? (fun c => c.code == targetCode) = some target) :
    computeBalance countries store targetCode = none ↔
      ((∀ o ∈ importLoads store countries targetCode, o = none) ∧
       (∀ o ∈ exportLoads store target, o = none)) := by
  unfold computeBalance
  rw [hfind]
  show combinedTable (accumulate (importLoads store countries targetCode))
      (accumulate (exportLoads store target)) = none ↔ _
  rw [combinedTable_eq_none_iff]
  have himp : (accumulate (importLoads store countries targetCode) = []) ↔
      ∀ o ∈ importLoads store countries targetCode, o = none := by
    rw [accumulate_eq_nil_iff]
    constructor
    · intro hall o ho
      rcases o with _ | rows
      · rfl
      · exfalso
        have ho2 := ho
        unfold importLoads at ho2
        rcases List.mem_map.mp ho2 with ⟨c, _, he⟩
        exact get_flow_data_some_ne_nil store c.code targetCode rows he (hall rows ho)
    · intro hall rows hr
      exact absurd (hall (some rows) hr) (by simp)
  have hexp : (accumulate (exportLoads store target) = []) ↔
      ∀ o ∈ exportLoads store target, o = none := by
    rw [accumulate_eq_nil_iff]
    constructor
    · intro hall o ho
      rcases o with _ | rows
      · rfl
      · exfalso
        have ho2 := ho
        unfold exportLoads at ho2
        rcases List.mem_map.mp ho2 with ⟨nb, _, he⟩
        exact get_flow_data_some_ne_nil store target.code nb rows he (hall rows ho)
    · intro hall rows hr
      exact absurd (hall (some rows) hr) (by simp)
  exact and_congr himp hexp

/-- C8 witness: for a one-country topology over an empty data directory, every
load returns no data and the balance computation yields the no-data signal
rather than a table. -/
theorem C8_no_data_signal_witness :
    computeBalance c8Countries c8EmptyStore "GR" = none := by
  have h := C8_no_data_signal c8Countries c8EmptyStore "GR" c8Target rfl
  apply h.mpr
  constructor
  · intro o ho
    rw [show importLoads c8EmptyStore c8Countries "GR" = [] from rfl] at ho
    exact absurd ho (List.not_mem_nil o)
  · intro o ho
    rw [show exportLoads c8EmptyStore c8Target = [none] from rfl] at ho
    exact List.mem_singleton.mp ho

end EntsoeFlows
